import Mathlib

/-!
# Verification of the aitrader breakout backtest / live-signal core

Shallow embedding of the strategy decision engine and backtest portfolio
simulator of the `aitrader3` repository, together with proofs about the
claims of its specification.

Conventions of the embedding:
* Prices and cash are rationals (`ℚ`); the source uses binary floats, whose
  rounding plays no role in any property treated here.
* pandas/NumPy `NaN` entries of indicator columns are modelled as `Option ℚ`
  with `none` for `NaN`; a comparison against `NaN` is `false`, as in NumPy.
* Python `int(x)` truncates toward zero; it is modelled by `pyInt`.
* Bar timestamps are modelled by the bar's position (an index `ℕ`): the
  source only stores them into trade records and never computes with them.
* Only the breakout strategy branch is embedded: every claim treated below
  is decided by the breakout path (`strategy_type != "pullback"` in
  `generate_realistic_signals`).
-/

namespace AITrader

/-- One row of the indicator dataframe (`load_data` in
`realistic_backtest.py`): raw OHLC plus the indicator columns the breakout
path reads.  Indicator columns may be `NaN` (here `none`) during warm-up. -/
structure Bar where
  high : ℚ
  low : ℚ
  close : ℚ
  ema10 : Option ℚ
  ema20 : Option ℚ
  rsi14 : Option ℚ
  atr14 : Option ℚ
  R1 : Option ℚ
  R2 : Option ℚ
  R3 : Option ℚ
deriving DecidableEq

/-- `a > b` for a possibly-`NaN` right operand (NumPy: comparison with
`NaN` is `False`). -/
def gtNaN (a : ℚ) (b : Option ℚ) : Bool :=
  match b with
  | none => false
  | some v => decide (v < a)

/-- `a ≤ b` with possibly-`NaN` right operand. -/
def leNaN (a : ℚ) (b : Option ℚ) : Bool :=
  match b with
  | none => false
  | some v => decide (a ≤ v)

/-- `a ≥ b` with possibly-`NaN` right operand. -/
def geNaN (a : ℚ) (b : Option ℚ) : Bool :=
  match b with
  | none => false
  | some v => decide (v ≤ a)

/-- `a > c` for a possibly-`NaN` left operand. -/
def oGt (a : Option ℚ) (c : ℚ) : Bool :=
  match a with
  | none => false
  | some v => decide (c < v)

/-- Python `int(x)`: truncation toward zero. -/
def pyInt (q : ℚ) : ℤ := if 0 ≤ q then ⌊q⌋ else ⌈q⌉

/-! ## Breakout trigger conditions

The same three per-level conditions appear verbatim in
`trading_strategies.TradingStrategy.check_breakout_conditions`,
`realistic_backtest.generate_realistic_signals` /
`run_realistic_backtest`, and `live_signal.check_breakout_signal`. -/

/-- `close > R1 and rsi14 > 35 and close > ema10`. -/
def r1Breakout (b : Bar) : Bool :=
  gtNaN b.close b.R1 && oGt b.rsi14 35 && gtNaN b.close b.ema10

/-- `close > R2 and rsi14 > 40 and close > ema20`. -/
def r2Breakout (b : Bar) : Bool :=
  gtNaN b.close b.R2 && oGt b.rsi14 40 && gtNaN b.close b.ema20

/-- `close > R3 and rsi14 > 40`. -/
def r3Breakout (b : Bar) : Bool :=
  gtNaN b.close b.R3 && oGt b.rsi14 40

/-- The vectorised breakout `entry_condition` of
`generate_realistic_signals` (lines 62-78): any level breakout, and the
`notna` guards on `R1`, `R2`, `R3`, `atr14`. -/
def breakoutEntryCondition (b : Bar) : Bool :=
  (r1Breakout b || r2Breakout b || r3Breakout b)
    && b.R1.isSome && b.R2.isSome && b.R3.isSome && b.atr14.isSome

/-- Which resistance level a breakout entered at. -/
inductive BLevel where
  | R1 | R2 | R3
deriving DecidableEq

/-- Priority R3 > R2 > R1: `determine_breakout_level` in
`trading_strategies.py`, and inline in `generate_realistic_signals`
(lines 112-117) and `run_realistic_backtest` (lines 272-286). -/
def determineBreakoutLevel (b : Bar) : BLevel :=
  if r3Breakout b then .R3 else if r2Breakout b then .R2 else .R1

/-- Stop-loss ATR multiple hardcoded in `realistic_backtest.py`
(lines 146-160, 266-286) and `live_signal.check_breakout_signal`. -/
def rbSlMult : BLevel → ℚ
  | .R1 => 8/10
  | .R2 => 1
  | .R3 => 12/10

/-- Take-profit ATR multiple hardcoded in `realistic_backtest.py` and
`live_signal.check_breakout_signal`. -/
def rbTpMult : BLevel → ℚ
  | .R1 => 15/10
  | .R2 => 2
  | .R3 => 25/10

/-- Maximum hold days hardcoded in `realistic_backtest.py` and
`live_signal.check_breakout_signal`. -/
def rbMaxDays : BLevel → ℕ
  | .R1 => 4
  | .R2 => 6
  | .R3 => 8

/-- `TradingStrategy.get_breakout_parameters` in `trading_strategies.py`
(lines 68-100): `(stop_loss, take_profit, max_days)`.  Note its R1 row is
0.6 / 1.2 / 3, not the 0.8 / 1.5 / 4 hardcoded in `realistic_backtest.py`
and `live_signal.py`. -/
def get_breakout_parameters (level : BLevel) (atr entry_price : ℚ) : ℚ × ℚ × ℕ :=
  match level with
  | .R1 => (entry_price - 6/10 * atr, entry_price + 12/10 * atr, 3)
  | .R2 => (entry_price - 1 * atr, entry_price + 2 * atr, 6)
  | .R3 => (entry_price - 12/10 * atr, entry_price + 25/10 * atr, 8)

/-! ## Position sizers -/

/-- `calculate_realistic_position_size` in `realistic_backtest.py`
(lines 187-215), returning
`(final_shares, actual_investment, actual_risk, actual_risk_pct)`.
When `risk_per_share <= 0` the source returns a bare scalar `0` (which
would fault when the caller unpacks four values); it is modelled as the
zero tuple, and in particular as 0 shares. -/
def calculate_realistic_position_size (available_cash entry_price sl_price risk_pct : ℚ) :
    ℤ × ℚ × ℚ × ℚ :=
  let max_risk := available_cash * risk_pct
  let risk_per_share := |entry_price - sl_price|
  if risk_per_share ≤ 0 then (0, 0, 0, 0)
  else
    let shares_by_risk := pyInt (max_risk / risk_per_share)
    let max_investment := available_cash * (95/100)
    let shares_by_cash := pyInt (max_investment / entry_price)
    let final_shares := min shares_by_risk shares_by_cash
    let actual_investment := (final_shares : ℚ) * entry_price
    let actual_risk := (final_shares : ℚ) * risk_per_share
    let actual_risk_pct := if 0 < available_cash then actual_risk / available_cash else 0
    (final_shares, actual_investment, actual_risk, actual_risk_pct)

/-- `calculate_position_size` in `live_signal.py` (lines 62-77):
`(final_shares, actual_investment)`. -/
def live_calculate_position_size (available_cash entry_price sl_price risk_pct : ℚ) :
    ℤ × ℚ :=
  let max_risk := available_cash * risk_pct
  let risk_per_share := |entry_price - sl_price|
  if risk_per_share ≤ 0 then (0, 0)
  else
    let shares_by_risk := pyInt (max_risk / risk_per_share)
    let max_investment := available_cash * (95/100)
    let shares_by_cash := pyInt (max_investment / entry_price)
    let final_shares := min shares_by_risk shares_by_cash
    (final_shares, (final_shares : ℚ) * entry_price)

/-- `TradingStrategy.calculate_position_size` in `trading_strategies.py`
(lines 324-345): risk bound only, with no 0.95 cash-buffer cap. -/
def strategy_calculate_position_size (cash entry_price stop_loss risk_percent : ℚ) :
    ℤ × ℚ :=
  let risk_amount := cash * risk_percent
  let risk_per_share := |entry_price - stop_loss|
  if 0 < risk_per_share then
    let shares := pyInt (risk_amount / risk_per_share)
    (shares, (shares : ℚ) * entry_price)
  else (0, 0)

/-! ## Signal generation (`generate_realistic_signals`, breakout branch)

The source iterates over the dataframe carrying `position_open` and
`days_held`, writes the triggered level into the entry row, and on each
held bar re-reads it through `entry_idx = i - days_held` together with
`entry_price = df['close'].iloc[i - days_held]`.  Since `i - days_held`
is always the entry bar's index, the embedding carries the entry bar's
level and close in the iteration state instead. -/

/-- Iteration state of `generate_realistic_signals`:  `entryLevel` and
`entryClose` are the `triggered_level` and `close` of the entry bar
(meaningful only while `positionOpen`). -/
structure SigState where
  positionOpen : Bool
  daysHeld : ℕ
  entryLevel : BLevel
  entryClose : ℚ
deriving DecidableEq

/-- State before the first bar. -/
def sigInit : SigState := ⟨false, 0, .R1, 0⟩

/-- `sl_price` computed on a held bar (lines 122-160): the frozen entry
close minus the level's multiple of the *current* bar's ATR; `NaN`
(`none`) when the current bar's ATR is `NaN`. -/
def slOnHeldBar (s : SigState) (b : Bar) : Option ℚ :=
  b.atr14.map fun atr => s.entryClose - rbSlMult s.entryLevel * atr

/-- `tp_price` computed on a held bar. -/
def tpOnHeldBar (s : SigState) (b : Bar) : Option ℚ :=
  b.atr14.map fun atr => s.entryClose + rbTpMult s.entryLevel * atr

/-- One iteration of the `generate_realistic_signals` loop (lines 86-181,
breakout branch); returns the next state and the `(entries, exits)` flags
written for this bar. -/
def sigStep (s : SigState) (b : Bar) : SigState × Bool × Bool :=
  if !s.positionOpen && breakoutEntryCondition b then
    (⟨true, 0, determineBreakoutLevel b, b.close⟩, true, false)
  else if s.positionOpen then
    let d := s.daysHeld + 1
    let exitB := leNaN b.low (slOnHeldBar s b) || geNaN b.high (tpOnHeldBar s b)
      || decide (rbMaxDays s.entryLevel ≤ d)
    if exitB then (⟨false, 0, s.entryLevel, s.entryClose⟩, false, true)
    else (⟨true, d, s.entryLevel, s.entryClose⟩, false, false)
  else (s, false, false)

/-- The `(entries, exits)` flag lists produced by the loop from state `s`. -/
def genSignalsAux (s : SigState) : List Bar → List (Bool × Bool)
  | [] => []
  | b :: rest =>
    let r := sigStep s b
    (r.2.1, r.2.2) :: genSignalsAux r.1 rest

/-- `generate_realistic_signals(df, "breakout")` as the per-bar
`(entries, exits)` flags. -/
def genSignals (bars : List Bar) : List (Bool × Bool) :=
  genSignalsAux sigInit bars

/-- The `entries` boolean series. -/
def entriesOf (bars : List Bar) : List Bool := (genSignals bars).map (·.1)

/-- The `exits` boolean series. -/
def exitsOf (bars : List Bar) : List Bool := (genSignals bars).map (·.2)

/-- Signal-loop state after the first `n` bars. -/
def sigTrace (bars : List Bar) (n : ℕ) : SigState :=
  (bars.take n).foldl (fun s b => (sigStep s b).1) sigInit

/-! ## Portfolio simulation (`run_realistic_backtest`, lines 218-378) -/

/-- One completed trade as appended to `trade_log` (lines 315-323).
Dates are bar indices.  The record has no exit-reason field, exactly as
in the source. -/
structure Trade where
  entryDate : ℕ
  exitDate : ℕ
  entryPrice : ℚ
  exitPrice : ℚ
  shares : ℤ
  pnl : ℚ
  returnPct : ℚ
deriving DecidableEq

/-- Portfolio loop state: `equity` is the `portfolio_value` list, `trades`
the `trade_log`. -/
structure PortState where
  cash : ℚ
  sharesHeld : ℤ
  positionOpen : Bool
  entryPrice : ℚ
  entryDate : ℕ
  equity : List ℚ
  trades : List Trade
deriving DecidableEq

/-- State before the first bar of `run_realistic_backtest`. -/
def initPort (cash : ℚ) : PortState :=
  ⟨cash, 0, false, 0, 0, [], []⟩

/-- The trade record appended on an exit at bar `i` (lines 305-323):
`exit_price = current_price` (the bar's close). -/
def mkExitTrade (i : ℕ) (s : PortState) (b : Bar) : Trade :=
  { entryDate := s.entryDate
    exitDate := i
    entryPrice := s.entryPrice
    exitPrice := b.close
    shares := s.sharesHeld
    pnl := (s.sharesHeld : ℚ) * b.close - (s.sharesHeld : ℚ) * s.entryPrice
    returnPct := (b.close / s.entryPrice - 1) * 100 }

/-- The `current_value` computed at the top of the loop (lines 240-245):
`cash + shares_held * close` while holding, else `cash`. -/
def portEquityVal (s : PortState) (b : Bar) : ℚ :=
  if 0 < s.sharesHeld then s.cash + (s.sharesHeld : ℚ) * b.close else s.cash

/-- The sizer call of the entry branch (lines 287-291): current cash,
current close as entry, and the level's stop from the current bar's ATR. -/
def entrySizer (cash : ℚ) (b : Bar) (atr : ℚ) : ℤ × ℚ × ℚ × ℚ :=
  calculate_realistic_position_size cash b.close
    (b.close - rbSlMult (determineBreakoutLevel b) * atr) (2/100)

/-- One iteration of the `run_realistic_backtest` loop (lines 237-330,
breakout branch) at bar index `i` with this bar's `(entries, exits)`
flags.  The equity append happens first, from the pre-entry/exit state;
the `b.atr14 = none` entry case is unreachable because the entry flag
implies `atr14` is present (the source would compute a `NaN` stop there). -/
def portStep (i : ℕ) (s : PortState) (b : Bar) (e x : Bool) : PortState :=
  let s1 : PortState := { s with equity := s.equity ++ [portEquityVal s b] }
  if e = true ∧ s.positionOpen = false then
    match b.atr14 with
    | none => s1
    | some atr =>
      let r := entrySizer s.cash b atr
      if 0 < r.1 ∧ r.2.1 ≤ s.cash then
        { s1 with cash := s.cash - r.2.1, sharesHeld := r.1, positionOpen := true,
                  entryPrice := b.close, entryDate := i }
      else s1
  else if x = true ∧ s.positionOpen = true then
    { s1 with cash := s.cash + (s.sharesHeld : ℚ) * b.close, sharesHeld := 0,
              positionOpen := false, trades := s.trades ++ [mkExitTrade i s b] }
  else s1

/-- Folding the portfolio loop over bars paired with their signal flags,
starting at bar index `i`. -/
def portRun : List (Bar × Bool × Bool) → ℕ → PortState → PortState
  | [], _, s => s
  | (b, e, x) :: rest, i, s => portRun rest (i + 1) (portStep i s b e x)

/-- The bars zipped with the signal flags `generate_realistic_signals`
produced for them. -/
def zipSignals (bars : List Bar) : List (Bar × Bool × Bool) :=
  bars.zip (genSignals bars)

/-- Portfolio state after the whole loop of `run_realistic_backtest`. -/
def runPortfolio (bars : List Bar) (cash : ℚ) : PortState :=
  portRun (zipSignals bars) 0 (initPort cash)

/-- Portfolio state after the first `n` bars. -/
def portTrace (bars : List Bar) (cash : ℚ) (n : ℕ) : PortState :=
  portRun ((zipSignals bars).take n) 0 (initPort cash)

/-- The `portfolio_value` list of a run. -/
def equityOf (bars : List Bar) (cash : ℚ) : List ℚ :=
  (runPortfolio bars cash).equity

/-- The `trade_log` of a run. -/
def tradeLogOf (bars : List Bar) (cash : ℚ) : List Trade :=
  (runPortfolio bars cash).trades

/-- `df['close'].iloc[-1]` (junk 0 on an empty frame, where the source
would fault). -/
def lastClose (bars : List Bar) : ℚ :=
  (bars.getLast?).elim 0 (·.close)

/-- `final_value = cash + shares_held * df['close'].iloc[-1]` (line 333). -/
def finalValue (bars : List Bar) (cash : ℚ) : ℚ :=
  (runPortfolio bars cash).cash + ((runPortfolio bars cash).sharesHeld : ℚ) * lastClose bars

/-! ## Performance summarizer (lines 336-365) -/

/-- `Series.pct_change().dropna()` on a list of values. -/
def pctChanges : List ℚ → List ℚ
  | a :: b :: rest => (b / a - 1) :: pctChanges (b :: rest)
  | _ => []

/-- Arithmetic mean (junk 0 on `[]`). -/
def listMean (rs : List ℚ) : ℚ := rs.sum / rs.length

/-- pandas sample variance (`ddof=1`); junk value for fewer than two
observations, where pandas yields `NaN` (see `stdGuard`). -/
def sampleVar (rs : List ℚ) : ℚ :=
  ((rs.map fun x => (x - listMean rs) ^ 2).sum) / ((rs.length : ℚ) - 1)

/-- The test `returns.std() > 0` of line 341.  pandas `std` uses `ddof=1`
and is `NaN` for fewer than two observations, and `NaN > 0` is `False`;
for two or more observations `std = √variance > 0 ↔ variance > 0`. -/
def stdGuard (rs : List ℚ) : Bool :=
  decide (2 ≤ rs.length) && decide (0 < sampleVar rs)

/-- The Sharpe computation of lines 340-344:
`returns.mean() / returns.std() * sqrt(252) if returns.std() > 0 else 0`,
and 0 when there are no returns at all. -/
noncomputable def sharpeOf (rs : List ℚ) : ℝ :=
  if 0 < rs.length then
    if stdGuard rs then
      ((listMean rs : ℚ) : ℝ) / Real.sqrt ((sampleVar rs : ℚ) : ℝ) * Real.sqrt 252
    else 0
  else 0

/-- Running maximum (`Series.cummax`) continuation. -/
def cummaxAux (m : ℚ) : List ℚ → List ℚ
  | [] => []
  | x :: xs => max m x :: cummaxAux (max m x) xs

/-- `Series.cummax`. -/
def cummax : List ℚ → List ℚ
  | [] => []
  | x :: xs => x :: cummaxAux x xs

/-- `Series.min` (junk 0 on `[]`). -/
def listMin : List ℚ → ℚ
  | [] => 0
  | x :: xs => xs.foldl min x

/-- `((portfolio_values / portfolio_values.cummax()) - 1).min() * 100`
(line 342). -/
def maxDrawdown (vals : List ℚ) : ℚ :=
  listMin (List.zipWith (fun v m => v / m - 1) vals (cummax vals)) * 100

/-- `max_dd` as line 340-345 computes it: the drawdown only when there is
at least one return, else 0. -/
def maxDrawdownPct (bars : List Bar) (cash : ℚ) : ℚ :=
  if 0 < (pctChanges (equityOf bars cash)).length then maxDrawdown (equityOf bars cash)
  else 0

/-- `total_return = (final_value / initial_cash - 1) * 100` (line 334). -/
def totalReturnPct (bars : List Bar) (cash : ℚ) : ℚ :=
  (finalValue bars cash / cash - 1) * 100

/-- The Sharpe ratio of a run. -/
noncomputable def sharpeOfRun (bars : List Bar) (cash : ℚ) : ℝ :=
  sharpeOf (pctChanges (equityOf bars cash))

/-- `run_realistic_backtest(df, strategy_name, initial_cash)`: its
`return final_value, total_return, max_dd, sharpe` (line 378) — a
4-tuple; the `trade_log` is used for printed statistics only. -/
noncomputable def run_realistic_backtest (bars : List Bar) (initial_cash : ℚ) :
    ℚ × ℚ × ℚ × ℝ :=
  (finalValue bars initial_cash, totalReturnPct bars initial_cash,
   maxDrawdownPct bars initial_cash, sharpeOfRun bars initial_cash)

/-- Sum of winning trades' pnl (line 353). -/
def winsSum (trades : List Trade) : ℚ :=
  ((trades.filter fun t => decide (0 < t.pnl)).map (·.pnl)).sum

/-- `abs` of the sum of losing trades' pnl (line 354). -/
def lossAbs (trades : List Trade) : ℚ :=
  |((trades.filter fun t => decide (t.pnl < 0)).map (·.pnl)).sum|

/-- `profit_factor` of lines 348-365: for a nonempty trade log,
`winning / losing if losing > 0 else inf`; `0` when there are no trades.
`∞` is `⊤` in `WithTop ℚ`. -/
def profitFactor (trades : List Trade) : WithTop ℚ :=
  match trades with
  | [] => 0
  | _ :: _ => if 0 < lossAbs trades then ((winsSum trades / lossAbs trades : ℚ) : WithTop ℚ) else ⊤

/-! ## Live signal generator (`live_signal.py`) -/

/-- The BUY/HOLD decision of `check_breakout_signal` (lines 80-95): the
multi-level breakout condition evaluated on the latest bar, with the
`notna` guards; spelled out inline exactly as the source duplicates it.
`false` on an empty frame, where the source's `df.iloc[-1]` would fault. -/
def check_breakout_signal_isBuy (bars : List Bar) : Bool :=
  match bars.getLast? with
  | none => false
  | some latest =>
    let r1b := gtNaN latest.close latest.R1 && oGt latest.rsi14 35 && gtNaN latest.close latest.ema10
    let r2b := gtNaN latest.close latest.R2 && oGt latest.rsi14 40 && gtNaN latest.close latest.ema20
    let r3b := gtNaN latest.close latest.R3 && oGt latest.rsi14 40
    (r1b || r2b || r3b) && latest.R1.isSome && latest.R2.isSome && latest.R3.isSome
      && latest.atr14.isSome

/-- The trading plan `check_breakout_signal` attaches to a BUY signal. -/
structure LivePlan where
  entryLevel : BLevel
  entryPrice : ℚ
  slPrice : ℚ
  tpPrice : ℚ
  maxHoldDays : ℕ
  shares : ℤ
  investment : ℚ
deriving DecidableEq

/-- The plan computation of `check_breakout_signal` (lines 104-141):
level priority R3 > R2 > R1 with the hardcoded 1.2/2.5/8, 1.0/2.0/6
and 0.8/1.5/4 parameters, sized by `calculate_position_size`.
`none` when the signal is HOLD (the `atr14 = none` inner case is
unreachable: a BUY requires `notna(atr14)`). -/
def check_breakout_signal_plan (bars : List Bar) (cash : ℚ) : Option LivePlan :=
  match bars.getLast? with
  | none => none
  | some latest =>
    if check_breakout_signal_isBuy bars then
      match latest.atr14 with
      | none => none
      | some atr =>
        let r2b := gtNaN latest.close latest.R2 && oGt latest.rsi14 40 && gtNaN latest.close latest.ema20
        let r3b := gtNaN latest.close latest.R3 && oGt latest.rsi14 40
        let p : BLevel × ℚ × ℚ × ℕ :=
          if r3b then (.R3, latest.close - 12/10 * atr, latest.close + 25/10 * atr, 8)
          else if r2b then (.R2, latest.close - 1 * atr, latest.close + 2 * atr, 6)
          else (.R1, latest.close - 8/10 * atr, latest.close + 15/10 * atr, 4)
        let sz := live_calculate_position_size cash latest.close p.2.1 (2/100)
        some ⟨p.1, latest.close, p.2.1, p.2.2.1, p.2.2.2, sz.1, sz.2⟩
    else none

/-- Whether the backtest simulator, presented `bar` as the next bar from
a fresh FLAT state with the given cash, transitions FLAT→IN_POSITION:
one signal step from `sigInit` followed by one portfolio step from
`initPort`. -/
def backtestOpensOn (bar : Bar) (cash : ℚ) : Bool :=
  (portStep 0 (initPort cash) bar (sigStep sigInit bar).2.1 false).positionOpen

/-- The entry-bar share count the simulator's entry branch computes for
`bar` (0 when the bar's ATR is missing, where no entry can fire). -/
def entryShares (bar : Bar) (cash : ℚ) : ℤ :=
  match bar.atr14 with
  | none => 0
  | some atr => (entrySizer cash bar atr).1

/-- The entry-bar investment the simulator's entry branch computes. -/
def entryInvestment (bar : Bar) (cash : ℚ) : ℚ :=
  match bar.atr14 with
  | none => 0
  | some atr => (entrySizer cash bar atr).2.1

/-! ## Spec-side comparison definitions and trace observers -/

/-- The sample standard deviation as a partial value: defined only for
two or more observations (pandas `std` with `ddof=1` is `NaN` below
that).  Used to state the specification's wording of the Sharpe rule. -/
noncomputable def stdOpt (rs : List ℚ) : Option ℝ :=
  if 2 ≤ rs.length then some (Real.sqrt ((sampleVar rs : ℚ) : ℝ)) else none

/-- The Sharpe rule as the specification words it:
`mean(returns)/std(returns) × sqrt(252)`, defined as 0 when the standard
deviation of returns is 0 or undefined. -/
noncomputable def sharpeAsSpecified (rs : List ℚ) : ℝ :=
  match stdOpt rs with
  | none => 0
  | some s => if s = 0 then 0 else ((listMean rs : ℚ) : ℝ) / s * Real.sqrt 252


/-! ## Concrete test inputs

All bars have every indicator present; prices are chosen so that the
relevant conditions are exactly controlled. -/

/-- A bar that triggers nothing: `close` is below all resistance levels
and not above `ema10`/`ema20`. -/
def bFlat : Bar :=
  ⟨100, 100, 100, some 100, some 100, some 50, some 10, some 200, some 300, some 400⟩

/-- A bar triggering an R1 breakout only: `close = 100 > R1 = 90`,
`rsi14 = 50 > 35`, `close > ema10 = 90`; R2/R3 not broken. -/
def bEntry : Bar :=
  ⟨100, 95, 100, some 90, some 100, some 50, some 10, some 90, some 200, some 300⟩

/-- A held bar that touches nothing: with ATR 10 and entry close 100 the
R1 stop is 92 and the target 115; `low = 95 > 92`, `high = 100 < 115`. -/
def bHeld : Bar :=
  ⟨100, 95, 100, some 100, some 100, some 50, some 10, some 200, some 300, some 400⟩

/-- A held bar whose own ATR is 100: the re-derived stop is
`100 - 0.8 × 100 = 20`, so `low = 85` does not touch it — although with
the entry bar's ATR 10 the stop would be 92 and `low = 85 ≤ 92`. -/
def bHeldBigAtr : Bar :=
  ⟨100, 85, 100, some 100, some 100, some 50, some 100, some 200, some 300, some 400⟩

/-- The same held bar with ATR 10: stop 92, `low = 85 ≤ 92` fires it. -/
def bHeldSmallAtr : Bar :=
  ⟨100, 85, 100, some 100, some 100, some 50, some 10, some 200, some 300, some 400⟩

/-- A held bar touching both the stop (92 ≥ low = 80) and the target
(115 ≤ high = 120) intrabar, closing at 100. -/
def bBoth : Bar :=
  ⟨120, 80, 100, some 100, some 100, some 50, some 10, some 200, some 300, some 400⟩

/-- Three bars whose held bar carries ATR 100. -/
def dfAtrShift : List Bar := [bFlat, bEntry, bHeldBigAtr]

/-- The same three bars, the held bar carrying ATR 10. -/
def dfAtrSmall : List Bar := [bFlat, bEntry, bHeldSmallAtr]

/-- Entry at bar 1, both stop and target touched at bar 2. -/
def dfStopAndTarget : List Bar := [bFlat, bEntry, bBoth]

/-- Six trigger-free flat bars. -/
def dfAllFlat : List Bar := [bFlat, bFlat, bFlat, bFlat, bFlat, bFlat]

/-- Entry at bar 1, four uneventful held bars, time exit at bar 5; the
equity curve is constant because every close equals the entry price. -/
def dfRoundTrip : List Bar := [bFlat, bEntry, bHeld, bHeld, bHeld, bHeld]

/-- Entry at bar 1, one held bar, position still open after the last bar. -/
def dfStillOpen : List Bar := [bFlat, bEntry, bHeld]

/-- A concrete losing trade. -/
def tLoss : Trade := ⟨0, 1, 100, 90, 10, -100, -10⟩

/-- A concrete winning trade. -/
def tWin : Trade := ⟨0, 1, 100, 110, 10, 100, 10⟩

/-- Share-count consistency of a portfolio state: non-negative holdings,
empty while FLAT, positive while IN_POSITION.  Holds along every run. -/
def sharesInv (s : PortState) : Prop :=
  0 ≤ s.sharesHeld
    ∧ (s.positionOpen = false → s.sharesHeld = 0)
    ∧ (s.positionOpen = true → 0 < s.sharesHeld)

/-- `sharesInv` plus non-negative cash. -/
def goodState (s : PortState) : Prop :=
  0 ≤ s.cash ∧ sharesInv s

/-- Number of FLAT→IN_POSITION transitions among the first `n` bars. -/
def countEntriesUpTo (bars : List Bar) (cash : ℚ) (n : ℕ) : ℕ :=
  ((List.range n).filter fun k =>
    !(portTrace bars cash k).positionOpen && (portTrace bars cash (k + 1)).positionOpen).length

/-- Number of bars on which the simulator executed an entry
(FLAT→IN_POSITION transitions of the portfolio trace). -/
def countEntriesExec (bars : List Bar) (cash : ℚ) : ℕ :=
  countEntriesUpTo bars cash (zipSignals bars).length

/-! ## Helper lemmas -/

theorem pyInt_of_nonneg {q : ℚ} (h : 0 ≤ q) : pyInt q = ⌊q⌋ := by
  simp [pyInt, h]

theorem floor_min (a b : ℚ) : ⌊min a b⌋ = min ⌊a⌋ ⌊b⌋ := by
  rcases le_total a b with h | h
  · rw [min_eq_left h, min_eq_left (Int.floor_le_floor h)]
  · rw [min_eq_right h, min_eq_right (Int.floor_le_floor h)]

/-- A step with neither an executed entry condition nor an executed exit
only appends the equity value. -/
theorem portStep_no_entry_no_exit (i : ℕ) (s : PortState) (b : Bar) (e x : Bool)
    (h1 : ¬(e = true ∧ s.positionOpen = false)) (h2 : ¬(x = true ∧ s.positionOpen = true)) :
    portStep i s b e x = { s with equity := s.equity ++ [portEquityVal s b] } := by
  rw [portStep, if_neg h1, if_neg h2]

/-- An entry-flagged step from FLAT on a bar with no ATR only appends the
equity value (unreachable along real runs). -/
theorem portStep_entry_none (i : ℕ) (s : PortState) (b : Bar) (x : Bool)
    (hopen : s.positionOpen = false) (hatr : b.atr14 = none) :
    portStep i s b true x = { s with equity := s.equity ++ [portEquityVal s b] } := by
  rw [portStep, if_pos ⟨rfl, hopen⟩, hatr]

/-- An entry-flagged step from FLAT whose sizer admits the trade: buy. -/
theorem portStep_entry_exec (i : ℕ) (s : PortState) (b : Bar) (x : Bool) (atr : ℚ)
    (hopen : s.positionOpen = false) (hatr : b.atr14 = some atr)
    (hg : 0 < (entrySizer s.cash b atr).1 ∧ (entrySizer s.cash b atr).2.1 ≤ s.cash) :
    portStep i s b true x =
      { cash := s.cash - (entrySizer s.cash b atr).2.1,
        sharesHeld := (entrySizer s.cash b atr).1,
        positionOpen := true, entryPrice := b.close, entryDate := i,
        equity := s.equity ++ [portEquityVal s b], trades := s.trades } := by
  rw [portStep, if_pos ⟨rfl, hopen⟩, hatr]
  exact if_pos hg

/-- An entry-flagged step from FLAT whose sizer refuses the trade: no
entry, only the equity append. -/
theorem portStep_entry_skip (i : ℕ) (s : PortState) (b : Bar) (x : Bool) (atr : ℚ)
    (hopen : s.positionOpen = false) (hatr : b.atr14 = some atr)
    (hg : ¬(0 < (entrySizer s.cash b atr).1 ∧ (entrySizer s.cash b atr).2.1 ≤ s.cash)) :
    portStep i s b true x = { s with equity := s.equity ++ [portEquityVal s b] } := by
  rw [portStep, if_pos ⟨rfl, hopen⟩, hatr]
  exact if_neg hg

/-- An exit-flagged step while IN_POSITION: sell everything at the close
and append the trade record. -/
theorem portStep_exit_exec (i : ℕ) (s : PortState) (b : Bar) (e : Bool)
    (hopen : s.positionOpen = true) :
    portStep i s b e true =
      { cash := s.cash + (s.sharesHeld : ℚ) * b.close, sharesHeld := 0,
        positionOpen := false, entryPrice := s.entryPrice, entryDate := s.entryDate,
        equity := s.equity ++ [portEquityVal s b],
        trades := s.trades ++ [mkExitTrade i s b] } := by
  rw [portStep, if_neg (by simp [hopen]), if_pos ⟨rfl, hopen⟩]

/-- The realistic sizer's reported investment is its share count times the
entry price. -/
theorem sizer_investment (c e s r : ℚ) :
    (calculate_realistic_position_size c e s r).2.1 =
      ((calculate_realistic_position_size c e s r).1 : ℚ) * e := by
  unfold calculate_realistic_position_size
  by_cases h : |e - s| ≤ 0
  · rw [if_pos h]
    norm_num
  · rw [if_neg h]

/-! ## C1: held bars re-derive the stop from their own ATR -/

/-- C1 (claim false of the code): two runs whose bars agree everywhere
except in the held bar's own `atr14` produce different exit decisions.
With the held bar's ATR 100 the re-derived stop is 20 and `low = 85`
does not exit; with the held bar's ATR 10 the stop is 92 and the same
`low = 85` triggers a stop-loss exit — so the stop used on a held bar is
derived from that bar's ATR, not frozen from the entry bar's ATR 10. -/
theorem heldBar_stop_uses_current_atr :
    exitsOf dfAtrShift = [false, false, false]
    ∧ exitsOf dfAtrSmall = [false, false, true]
    ∧ entriesOf dfAtrShift = entriesOf dfAtrSmall
    ∧ slOnHeldBar (sigTrace dfAtrShift 2) bHeldBigAtr = some 20
    ∧ slOnHeldBar (sigTrace dfAtrSmall 2) bHeldSmallAtr = some 92
    ∧ bHeldBigAtr = { bHeldSmallAtr with atr14 := some 100 } := by
  norm_num [exitsOf, entriesOf, genSignals, genSignalsAux, sigStep, sigInit, sigTrace,
    slOnHeldBar, tpOnHeldBar, breakoutEntryCondition, r1Breakout, r2Breakout, r3Breakout,
    determineBreakoutLevel, rbSlMult, rbTpMult, rbMaxDays, gtNaN, leNaN, geNaN, oGt,
    dfAtrShift, dfAtrSmall, bFlat, bEntry, bHeldBigAtr, bHeldSmallAtr]

/-! ## C2: exit recording -/

/-- C2 (counterexample): on a held bar touching both the stop (92, with
`low = 80 ≤ 92`) and the target (115, with `high = 120 ≥ 115`), the
position exits, but the trade's recorded exit price is the bar's close
100, not the stop price 92. -/
theorem stop_hit_records_close_not_stop :
    exitsOf dfStopAndTarget = [false, false, true]
    ∧ leNaN bBoth.low (slOnHeldBar (sigTrace dfStopAndTarget 2) bBoth) = true
    ∧ geNaN bBoth.high (tpOnHeldBar (sigTrace dfStopAndTarget 2) bBoth) = true
    ∧ slOnHeldBar (sigTrace dfStopAndTarget 2) bBoth = some 92
    ∧ (tradeLogOf dfStopAndTarget 1000000).map (·.exitPrice) = [100]
    ∧ (100 : ℚ) ≠ 92 := by
  norm_num [exitsOf, entriesOf, genSignals, genSignalsAux, sigStep, sigInit, sigTrace,
    slOnHeldBar, tpOnHeldBar, breakoutEntryCondition, r1Breakout, r2Breakout, r3Breakout,
    determineBreakoutLevel, rbSlMult, rbTpMult, rbMaxDays, gtNaN, leNaN, geNaN, oGt,
    tradeLogOf, runPortfolio, portRun, portStep, portEquityVal, entrySizer, zipSignals,
    initPort, mkExitTrade, calculate_realistic_position_size, pyInt,
    dfStopAndTarget, bFlat, bEntry, bBoth]

/-- C2 (amended): on a held bar the stop-loss test `low ≤ sl` is checked
before the take-profit test and forces an exit on that bar; the executed
exit appends exactly one trade record whose exit price is the bar's
close (the `Trade` record has no exit-reason field). -/
theorem stop_precedence_and_exit_at_close :
    (∀ (s : SigState) (b : Bar), s.positionOpen = true →
      leNaN b.low (slOnHeldBar s b) = true → (sigStep s b).2.2 = true)
    ∧ (∀ (i : ℕ) (p : PortState) (b : Bar) (e : Bool), p.positionOpen = true →
        (portStep i p b e true).trades = p.trades ++ [mkExitTrade i p b]
        ∧ (mkExitTrade i p b).exitPrice = b.close) := by
  constructor
  · intro s b hopen hle
    simp [sigStep, hopen, hle]
  · intro i p b e hopen
    constructor
    · simp [portStep, hopen]
    · rfl

/-- C2 (amended, witness): the amended statement at the concrete
stop-and-target bar and a concrete open portfolio state. -/
theorem stop_precedence_and_exit_at_close_witness :
    (sigStep ⟨true, 0, .R1, 100⟩ bBoth).2.2 = true
    ∧ (portStep 2 ⟨750000, 2500, true, 100, 1, [], []⟩ bBoth false true).trades =
        [mkExitTrade 2 ⟨750000, 2500, true, 100, 1, [], []⟩ bBoth] :=
  ⟨stop_precedence_and_exit_at_close.1 ⟨true, 0, .R1, 100⟩ bBoth rfl
    (by norm_num [leNaN, slOnHeldBar, rbSlMult, bBoth]),
   (stop_precedence_and_exit_at_close.2 2 ⟨750000, 2500, true, 100, 1, [], []⟩ bBoth false rfl).1⟩

/-! ## C3: live BUY versus simulator entry -/

/-- C3 (counterexample): on a bar satisfying the breakout trigger but
with only 100 cash, the live generator reports BUY while the simulator,
presented the same bar from a fresh FLAT state with the same cash, does
not open (the sizer yields 0 shares). -/
theorem live_buy_without_backtest_entry :
    check_breakout_signal_isBuy [bEntry] = true
    ∧ backtestOpensOn bEntry 100 = false := by
  norm_num [check_breakout_signal_isBuy, backtestOpensOn, exitsOf, entriesOf, genSignals, genSignalsAux, sigStep, sigInit, sigTrace,
    slOnHeldBar, tpOnHeldBar, breakoutEntryCondition, r1Breakout, r2Breakout, r3Breakout,
    determineBreakoutLevel, rbSlMult, rbTpMult, rbMaxDays, gtNaN, leNaN, geNaN, oGt,
    tradeLogOf, runPortfolio, portRun, portStep, portEquityVal, entrySizer, zipSignals,
    initPort, mkExitTrade, calculate_realistic_position_size, pyInt,
    bEntry]

/-! ## C4: the position sizer -/

/-- C4 (counterexample): `TradingStrategy.calculate_position_size` — one
of the program's position sizers — applies no 0.95 cash cap: on
cash 1,000,000, entry 1,000, stop 980, risk 0.02 it returns 1,000 shares
(investing all cash), not the 950 of the claimed
`floor(min(risk bound, 0.95 cash bound))` formula. -/
theorem strategy_sizer_ignores_cash_cap :
    strategy_calculate_position_size 1000000 1000 980 (2/100) = (1000, 1000000)
    ∧ (1000 : ℤ) ≠
        ⌊min ((2/100) * 1000000 / |(1000 : ℚ) - 980|) (95/100 * 1000000 / 1000)⌋ := by
  constructor
  · norm_num [strategy_calculate_position_size, pyInt]
  · norm_num [min_def]

/-- C4 (amended): for positive cash, risk fraction and entry price, the
realistic-backtest sizer (and the identical live-signal sizer) returns 0
shares when `|entry - stop| = 0` and otherwise
`⌊min (risk·cash/|entry-stop|) (0.95·cash/entry)⌋` shares, while the
centralized `TradingStrategy.calculate_position_size` returns the risk
bound `⌊risk·cash/|entry-stop|⌋` with no cash cap. -/
theorem sizer_formula (cash r e s : ℚ) (hc : 0 < cash) (hr : 0 < r) (he : 0 < e) :
    (|e - s| = 0 →
      (calculate_realistic_position_size cash e s r).1 = 0
      ∧ (live_calculate_position_size cash e s r).1 = 0
      ∧ (strategy_calculate_position_size cash e s r).1 = 0)
    ∧ (|e - s| ≠ 0 →
      (calculate_realistic_position_size cash e s r).1 =
        ⌊min (r * cash / |e - s|) (95/100 * cash / e)⌋
      ∧ (live_calculate_position_size cash e s r).1 =
        ⌊min (r * cash / |e - s|) (95/100 * cash / e)⌋
      ∧ (strategy_calculate_position_size cash e s r).1 = ⌊r * cash / |e - s|⌋) := by
  constructor
  · intro h0
    have hle : |e - s| ≤ 0 := le_of_eq h0
    have hnlt : ¬ 0 < |e - s| := by rw [h0]; exact lt_irrefl 0
    refine ⟨?_, ?_, ?_⟩
    · simp [calculate_realistic_position_size, hle]
    · simp [live_calculate_position_size, hle]
    · simp [strategy_calculate_position_size, hnlt]
  · intro hne
    have hpos : 0 < |e - s| := lt_of_le_of_ne (abs_nonneg _) (Ne.symm hne)
    have hnle : ¬ |e - s| ≤ 0 := not_le.mpr hpos
    have hrisk : 0 ≤ cash * r / |e - s| := by positivity
    have hcash : 0 ≤ cash * (95/100) / e := by positivity
    have hmin : min (pyInt (cash * r / |e - s|)) (pyInt (cash * (95/100) / e)) =
        ⌊min (r * cash / |e - s|) (95/100 * cash / e)⌋ := by
      rw [pyInt_of_nonneg hrisk, pyInt_of_nonneg hcash, floor_min,
        mul_comm cash r, mul_comm cash (95/100)]
    refine ⟨?_, ?_, ?_⟩
    · simp only [calculate_realistic_position_size, if_neg hnle]
      exact hmin
    · simp only [live_calculate_position_size, if_neg hnle]
      exact hmin
    · simp only [strategy_calculate_position_size, if_pos hpos]
      rw [pyInt_of_nonneg hrisk, mul_comm cash r]

/-- C4 (amended, witness): on cash 1,000,000, entry 1,000, stop 980,
risk 0.02 the realistic sizer returns exactly 950 shares. -/
theorem sizer_formula_witness :
    (calculate_realistic_position_size 1000000 1000 980 (2/100)).1 = 950 := by
  have h := (sizer_formula 1000000 (2/100) 1000 980 (by norm_num) (by norm_num)
    (by norm_num)).2 (by norm_num)
  rw [h.1]
  norm_num [min_def]

/-! ## C5: R1 breakout parameters -/

/-- C5 (evaluation at the failing input): the centralized parameter table
gives an R1 breakout (ATR 10, entry 100) stop 94 = 100 − 0.6·ATR, target
112 = 100 + 1.2·ATR and 3 hold days, but the live-signal path plans
stop 92 = 100 − 0.8·ATR, target 115 = 100 + 1.5·ATR and 4 hold days, and
the backtest path holds an untouched R1 position for 4 bars (exit on the
fourth held bar, not the third). -/
theorem breakout_r1_parameters_diverge :
    get_breakout_parameters .R1 10 100 = (94, 112, 3)
    ∧ check_breakout_signal_plan [bEntry] 1000000 =
        some ⟨.R1, 100, 92, 115, 4, 2500, 250000⟩
    ∧ exitsOf dfRoundTrip = [false, false, false, false, false, true]
    ∧ ((94 : ℚ), (112 : ℚ), (3 : ℕ)) ≠ ((92 : ℚ), (115 : ℚ), (4 : ℕ)) := by
  norm_num [get_breakout_parameters, check_breakout_signal_plan, check_breakout_signal_isBuy,
    live_calculate_position_size, pyInt, min_def, exitsOf, entriesOf, genSignals, genSignalsAux, sigStep, sigInit, sigTrace,
    slOnHeldBar, tpOnHeldBar, breakoutEntryCondition, r1Breakout, r2Breakout, r3Breakout,
    determineBreakoutLevel, rbSlMult, rbTpMult, rbMaxDays, gtNaN, leNaN, geNaN, oGt,
    dfRoundTrip, bFlat, bEntry, bHeld]

/-- C3 (amended): the live generator reports BUY exactly when the shared
breakout entry condition holds on the final bar, while the simulator,
presented that bar from a fresh FLAT state, opens exactly when the entry
condition holds AND the sizer yields positive shares with investment at
most the available cash; so BUY can fire when the simulator would not
open. -/
theorem live_buy_iff_entry_trigger :
    ∀ (bars : List Bar) (h : bars ≠ []) (cash : ℚ),
      check_breakout_signal_isBuy bars = breakoutEntryCondition (bars.getLast h)
      ∧ (backtestOpensOn (bars.getLast h) cash = true ↔
          breakoutEntryCondition (bars.getLast h) = true
          ∧ 0 < entryShares (bars.getLast h) cash
          ∧ entryInvestment (bars.getLast h) cash ≤ cash) := by
  intro bars h cash
  have hlast : bars.getLast? = some (bars.getLast h) := List.getLast?_eq_getLast bars h
  constructor
  · rw [check_breakout_signal_isBuy, hlast]
    rfl
  · have hsig : (sigStep sigInit (bars.getLast h)).2.1
        = breakoutEntryCondition (bars.getLast h) := by
      cases hc : breakoutEntryCondition (bars.getLast h) <;>
        simp [sigStep, sigInit, hc]
    rw [backtestOpensOn, hsig]
    cases hc : breakoutEntryCondition (bars.getLast h) with
    | false =>
      rw [portStep_no_entry_no_exit _ _ _ _ _ (by simp) (by simp [initPort])]
      simp [initPort]
    | true =>
      have hsome : (bars.getLast h).atr14.isSome = true := by
        have := hc
        simp only [breakoutEntryCondition, Bool.and_eq_true] at this
        exact this.2
      obtain ⟨atr, hatr⟩ := Option.isSome_iff_exists.mp hsome
      have hshares : entryShares (bars.getLast h) cash = (entrySizer cash (bars.getLast h) atr).1 := by
        simp [entryShares, hatr]
      have hinv : entryInvestment (bars.getLast h) cash
          = (entrySizer cash (bars.getLast h) atr).2.1 := by
        simp [entryInvestment, hatr]
      rw [hshares, hinv]
      by_cases hg : 0 < (entrySizer cash (bars.getLast h) atr).1
          ∧ (entrySizer cash (bars.getLast h) atr).2.1 ≤ cash
      · rw [portStep_entry_exec 0 (initPort cash) (bars.getLast h) false atr rfl hatr hg]
        simp [hg.1, hg.2]
      · rw [portStep_entry_skip 0 (initPort cash) (bars.getLast h) false atr rfl hatr hg]
        simp only [initPort]
        constructor
        · intro hfalse
          simp at hfalse
        · rintro ⟨-, hs, hi⟩
          exact absurd ⟨hs, hi⟩ hg

/-- C3 (amended, witness): the amended statement at a one-bar frame
carrying the R1-breakout bar, with ample cash. -/
theorem live_buy_iff_entry_trigger_witness :
    check_breakout_signal_isBuy [bEntry]
        = breakoutEntryCondition ([bEntry].getLast (List.cons_ne_nil bEntry []))
    ∧ (backtestOpensOn ([bEntry].getLast (List.cons_ne_nil bEntry [])) 1000000 = true ↔
        breakoutEntryCondition ([bEntry].getLast (List.cons_ne_nil bEntry [])) = true
        ∧ 0 < entryShares ([bEntry].getLast (List.cons_ne_nil bEntry [])) 1000000
        ∧ entryInvestment ([bEntry].getLast (List.cons_ne_nil bEntry [])) 1000000 ≤ 1000000) :=
  live_buy_iff_entry_trigger [bEntry] (List.cons_ne_nil bEntry []) 1000000

/-! ## C7: what the backtest returns -/

set_option maxHeartbeats 2000000 in
theorem flat_roundTrip_equity_eq :
    equityOf dfAllFlat 1000000 = equityOf dfRoundTrip 1000000 := by
  norm_num [equityOf, runPortfolio, portRun, portStep, portEquityVal, entrySizer, zipSignals, initPort, genSignals,
    genSignalsAux, sigStep, sigInit, breakoutEntryCondition, r1Breakout, r2Breakout,
    r3Breakout, determineBreakoutLevel, rbSlMult, rbTpMult, rbMaxDays, gtNaN, leNaN, geNaN,
    oGt, calculate_realistic_position_size, pyInt, mkExitTrade, slOnHeldBar, tpOnHeldBar,
    dfAllFlat, dfRoundTrip, bFlat, bEntry, bHeld]

set_option maxHeartbeats 2000000 in
theorem flat_roundTrip_final_eq :
    finalValue dfAllFlat 1000000 = finalValue dfRoundTrip 1000000 := by
  norm_num [finalValue, lastClose, runPortfolio, portRun, portStep, portEquityVal, entrySizer, zipSignals, initPort,
    genSignals, genSignalsAux, sigStep, sigInit, breakoutEntryCondition, r1Breakout,
    r2Breakout, r3Breakout, determineBreakoutLevel, rbSlMult, rbTpMult, rbMaxDays, gtNaN,
    leNaN, geNaN, oGt, calculate_realistic_position_size, pyInt, mkExitTrade, slOnHeldBar,
    tpOnHeldBar, dfAllFlat, dfRoundTrip, bFlat, bEntry, bHeld]

set_option maxHeartbeats 2000000 in
/-- C7 (counterexample): two runs returning the same 4-tuple have
different trade logs (no trades versus one round trip), so the trade log
is not part of the returned value. -/
theorem run_tuple_equal_trade_logs_differ :
    run_realistic_backtest dfAllFlat 1000000 = run_realistic_backtest dfRoundTrip 1000000
    ∧ tradeLogOf dfAllFlat 1000000 ≠ tradeLogOf dfRoundTrip 1000000 := by
  constructor
  · unfold run_realistic_backtest totalReturnPct maxDrawdownPct sharpeOfRun
    rw [flat_roundTrip_equity_eq, flat_roundTrip_final_eq]
  · norm_num [tradeLogOf, runPortfolio, portRun, portStep, portEquityVal, entrySizer, zipSignals, initPort, genSignals,
      genSignalsAux, sigStep, sigInit, breakoutEntryCondition, r1Breakout, r2Breakout,
      r3Breakout, determineBreakoutLevel, rbSlMult, rbTpMult, rbMaxDays, gtNaN, leNaN, geNaN,
      oGt, calculate_realistic_position_size, pyInt, mkExitTrade, slOnHeldBar, tpOnHeldBar,
      dfAllFlat, dfRoundTrip, bFlat, bEntry, bHeld]

/-- C7 (amended): `run_realistic_backtest` returns exactly the 4-tuple
(final equity, total return %, max drawdown %, Sharpe), and that return
value is fully determined by the equity curve and the final equity —
in particular it carries no trade-log component. -/
theorem run_returns_only_metrics :
    ∀ (bars : List Bar) (cash : ℚ),
      run_realistic_backtest bars cash
        = (finalValue bars cash, totalReturnPct bars cash, maxDrawdownPct bars cash,
            sharpeOfRun bars cash)
      ∧ ∀ bars2 : List Bar, equityOf bars cash = equityOf bars2 cash →
          finalValue bars cash = finalValue bars2 cash →
          run_realistic_backtest bars cash = run_realistic_backtest bars2 cash := by
  intro bars cash
  refine ⟨rfl, ?_⟩
  intro bars2 he hf
  unfold run_realistic_backtest totalReturnPct maxDrawdownPct sharpeOfRun
  rw [he, hf]

/-- C7 (amended, witness): the amended statement applied to the two
concrete runs with identical equity curves. -/
theorem run_returns_only_metrics_witness :
    run_realistic_backtest dfAllFlat 1000000 = run_realistic_backtest dfRoundTrip 1000000 :=
  (run_returns_only_metrics dfAllFlat 1000000).2 dfRoundTrip
    flat_roundTrip_equity_eq flat_roundTrip_final_eq

/-! ## C8: the performance summarizer -/

theorem sampleVar_nonneg (rs : List ℚ) : 0 ≤ sampleVar rs := by
  cases rs with
  | nil => simp [sampleVar]
  | cons a as =>
    apply div_nonneg
    · apply List.sum_nonneg
      intro x hx
      obtain ⟨y, _, rfl⟩ := List.mem_map.mp hx
      positivity
    · have h1 : (1 : ℚ) ≤ ((a :: as).length : ℚ) := by
        have : 1 ≤ (a :: as).length := Nat.succ_le_succ (Nat.zero_le _)
        exact_mod_cast this
      linarith

/-- C8: the summarizer's Sharpe equals the specified
`mean/std × √252` with 0 when the standard deviation is 0 or undefined,
and its profit factor is the winning-pnl sum over the absolute losing-pnl
sum, `∞` when there are wins but no losses, and 0 with no trades. -/
theorem summarizer_formulas :
    ∀ (rs : List ℚ) (trades : List Trade),
      sharpeOf rs = sharpeAsSpecified rs
      ∧ profitFactor ([] : List Trade) = 0
      ∧ (lossAbs trades ≠ 0 →
          profitFactor trades = ((winsSum trades / lossAbs trades : ℚ) : WithTop ℚ))
      ∧ ((∃ t ∈ trades, 0 < t.pnl) → (∀ t ∈ trades, ¬ t.pnl < 0) →
          profitFactor trades = ⊤) := by
  intro rs trades
  refine ⟨?_, rfl, ?_, ?_⟩
  · by_cases h2 : 2 ≤ rs.length
    · have h0 : 0 < rs.length := lt_of_lt_of_le (by norm_num) h2
      simp only [sharpeAsSpecified, stdOpt, if_pos h2]
      by_cases hv : 0 < sampleVar rs
      · have hguard : stdGuard rs = true := by simp [stdGuard, h2, hv]
        have hsqrt : Real.sqrt ((sampleVar rs : ℚ) : ℝ) ≠ 0 := by
          have hpos : (0 : ℝ) < ((sampleVar rs : ℚ) : ℝ) := by exact_mod_cast hv
          positivity
        simp [sharpeOf, h0, hguard, hsqrt]
      · have hguard : stdGuard rs = false := by simp [stdGuard, hv]
        have hsqrt : Real.sqrt ((sampleVar rs : ℚ) : ℝ) = 0 := by
          apply Real.sqrt_eq_zero'.mpr
          exact_mod_cast not_lt.mp hv
        simp [sharpeOf, hguard, hsqrt]
    · have hguard : stdGuard rs = false := by simp [stdGuard, h2]
      simp [sharpeOf, sharpeAsSpecified, stdOpt, hguard, h2]
  · intro hne
    cases trades with
    | nil => exact absurd (by simp [lossAbs]) hne
    | cons t ts =>
      have hpos : 0 < lossAbs (t :: ts) := lt_of_le_of_ne (abs_nonneg _) (Ne.symm hne)
      simp [profitFactor, hpos]
  · rintro ⟨t, ht, htpos⟩ hnl
    have hfilter : ((trades.filter fun u => decide (u.pnl < 0))) = [] := by
      apply List.filter_eq_nil_iff.mpr
      intro a ha
      simpa using hnl a ha
    have hzero : lossAbs trades = 0 := by simp [lossAbs, hfilter]
    cases trades with
    | nil => exact absurd ht (List.not_mem_nil t)
    | cons a ts => simp [profitFactor, hzero]

/-- C8 (witness): the profit-factor clauses at a single losing trade and
at a single winning trade. -/
theorem summarizer_formulas_witness :
    profitFactor [tLoss] = ((winsSum [tLoss] / lossAbs [tLoss] : ℚ) : WithTop ℚ)
    ∧ profitFactor [tWin] = ⊤ :=
  ⟨(summarizer_formulas [] [tLoss]).2.2.1 (by norm_num [lossAbs, tLoss]),
   (summarizer_formulas [] [tWin]).2.2.2 ⟨tWin, by simp, by norm_num [tWin]⟩
     (by
      intro t ht
      rw [List.mem_singleton] at ht
      subst ht
      norm_num [tWin])⟩

/-! ## Run-level machinery: lengths, prefixes and invariants -/

theorem genSignalsAux_length (l : List Bar) : ∀ s, (genSignalsAux s l).length = l.length := by
  induction l with
  | nil => intro s; rfl
  | cons b rest ih =>
    intro s
    simp [genSignalsAux, ih]

theorem zipSignals_length (bars : List Bar) : (zipSignals bars).length = bars.length := by
  simp [zipSignals, genSignals, List.length_zip, genSignalsAux_length]

theorem zip_getElem?_fst {α β : Type} :
    ∀ (l₁ : List α) (l₂ : List β) (n : ℕ) (z : α × β),
      (l₁.zip l₂)[n]? = some z → l₁[n]? = some z.1 := by
  intro l₁
  induction l₁ with
  | nil => intro l₂ n z h; simp [List.zip] at h
  | cons a as ih =>
    intro l₂ n z h
    cases l₂ with
    | nil => simp [List.zip] at h
    | cons b bs =>
      cases n with
      | zero =>
        simp only [List.zip_cons_cons, List.getElem?_cons_zero, Option.some.injEq] at h
        simp [← h]
      | succ m =>
        simp only [List.zip_cons_cons, List.getElem?_cons_succ] at h ⊢
        exact ih bs m z h

/-- Every branch of a portfolio step appends exactly one equity value. -/
theorem portStep_equity (i : ℕ) (s : PortState) (b : Bar) (e x : Bool) :
    (portStep i s b e x).equity = s.equity ++ [portEquityVal s b] := by
  by_cases h1 : e = true ∧ s.positionOpen = false
  · obtain ⟨he, ho⟩ := h1
    subst he
    cases hatr : b.atr14 with
    | none => rw [portStep_entry_none _ _ _ _ ho hatr]
    | some atr =>
      by_cases hg : 0 < (entrySizer s.cash b atr).1 ∧ (entrySizer s.cash b atr).2.1 ≤ s.cash
      · rw [portStep_entry_exec _ _ _ _ _ ho hatr hg]
      · rw [portStep_entry_skip _ _ _ _ _ ho hatr hg]
  · by_cases h2 : x = true ∧ s.positionOpen = true
    · obtain ⟨hx, ho⟩ := h2
      subst hx
      rw [portStep_exit_exec _ _ _ _ ho]
    · rw [portStep_no_entry_no_exit _ _ _ _ _ h1 h2]

/-- Share-count consistency is preserved by every portfolio step. -/
theorem portStep_sharesInv (i : ℕ) (s : PortState) (b : Bar) (e x : Bool)
    (hs : sharesInv s) : sharesInv (portStep i s b e x) := by
  by_cases h1 : e = true ∧ s.positionOpen = false
  · obtain ⟨he, ho⟩ := h1
    subst he
    cases hatr : b.atr14 with
    | none =>
      rw [portStep_entry_none _ _ _ _ ho hatr]
      exact hs
    | some atr =>
      by_cases hg : 0 < (entrySizer s.cash b atr).1 ∧ (entrySizer s.cash b atr).2.1 ≤ s.cash
      · rw [portStep_entry_exec _ _ _ _ _ ho hatr hg]
        exact ⟨le_of_lt hg.1, fun hfo => by simp at hfo, fun _ => hg.1⟩
      · rw [portStep_entry_skip _ _ _ _ _ ho hatr hg]
        exact hs
  · by_cases h2 : x = true ∧ s.positionOpen = true
    · obtain ⟨hx, ho⟩ := h2
      subst hx
      rw [portStep_exit_exec _ _ _ _ ho]
      exact ⟨le_refl 0, fun _ => rfl, fun hto => by simp at hto⟩
    · rw [portStep_no_entry_no_exit _ _ _ _ _ h1 h2]
      exact hs

/-- Non-negative cash is preserved by every portfolio step on a bar with
non-negative close. -/
theorem portStep_cash_nonneg (i : ℕ) (s : PortState) (b : Bar) (e x : Bool)
    (hs : sharesInv s) (hc : 0 ≤ s.cash) (hb : 0 ≤ b.close) :
    0 ≤ (portStep i s b e x).cash := by
  by_cases h1 : e = true ∧ s.positionOpen = false
  · obtain ⟨he, ho⟩ := h1
    subst he
    cases hatr : b.atr14 with
    | none =>
      rw [portStep_entry_none _ _ _ _ ho hatr]
      exact hc
    | some atr =>
      by_cases hg : 0 < (entrySizer s.cash b atr).1 ∧ (entrySizer s.cash b atr).2.1 ≤ s.cash
      · rw [portStep_entry_exec _ _ _ _ _ ho hatr hg]
        exact sub_nonneg.mpr hg.2
      · rw [portStep_entry_skip _ _ _ _ _ ho hatr hg]
        exact hc
  · by_cases h2 : x = true ∧ s.positionOpen = true
    · obtain ⟨hx, ho⟩ := h2
      subst hx
      rw [portStep_exit_exec _ _ _ _ ho]
      have hsh : (0 : ℚ) ≤ (s.sharesHeld : ℚ) := by exact_mod_cast hs.1
      exact add_nonneg hc (mul_nonneg hsh hb)
    · rw [portStep_no_entry_no_exit _ _ _ _ _ h1 h2]
      exact hc

/-- C6 step characterization: a step that transitions FLAT→IN_POSITION
pays exactly shares × close out of cash, within the pre-entry cash, and
records no trade. -/
theorem portStep_opened (i : ℕ) (s : PortState) (b : Bar) (e x : Bool)
    (h0 : s.positionOpen = false) (h1 : (portStep i s b e x).positionOpen = true) :
    (portStep i s b e x).cash = s.cash - ((portStep i s b e x).sharesHeld : ℚ) * b.close
    ∧ ((portStep i s b e x).sharesHeld : ℚ) * b.close ≤ s.cash
    ∧ 0 < (portStep i s b e x).sharesHeld
    ∧ (portStep i s b e x).trades = s.trades := by
  by_cases hone : e = true ∧ s.positionOpen = false
  · obtain ⟨he, -⟩ := hone
    subst he
    cases hatr : b.atr14 with
    | none =>
      rw [portStep_entry_none _ _ _ _ h0 hatr] at h1
      exact absurd h1 (by simp [h0])
    | some atr =>
      by_cases hg : 0 < (entrySizer s.cash b atr).1 ∧ (entrySizer s.cash b atr).2.1 ≤ s.cash
      · rw [portStep_entry_exec _ _ _ _ _ h0 hatr hg]
        have hinv : (entrySizer s.cash b atr).2.1 = ((entrySizer s.cash b atr).1 : ℚ) * b.close :=
          sizer_investment _ _ _ _
        refine ⟨by rw [← hinv], by rw [← hinv]; exact hg.2, hg.1, rfl⟩
      · rw [portStep_entry_skip _ _ _ _ _ h0 hatr hg] at h1
        exact absurd h1 (by simp [h0])
  · have h2 : ¬(x = true ∧ s.positionOpen = true) := by simp [h0]
    rw [portStep_no_entry_no_exit _ _ _ _ _ hone h2] at h1
    exact absurd h1 (by simp [h0])

/-- C6 step characterization: a step that transitions IN_POSITION→FLAT
receives exactly shares × close into cash and appends the trade record. -/
theorem portStep_closed (i : ℕ) (s : PortState) (b : Bar) (e x : Bool)
    (h0 : s.positionOpen = true) (h1 : (portStep i s b e x).positionOpen = false) :
    (portStep i s b e x).cash = s.cash + (s.sharesHeld : ℚ) * b.close
    ∧ (portStep i s b e x).sharesHeld = 0
    ∧ (portStep i s b e x).trades = s.trades ++ [mkExitTrade i s b] := by
  have hone : ¬(e = true ∧ s.positionOpen = false) := by simp [h0]
  by_cases h2 : x = true ∧ s.positionOpen = true
  · obtain ⟨hx, -⟩ := h2
    subst hx
    rw [portStep_exit_exec _ _ _ _ h0]
    exact ⟨rfl, rfl, rfl⟩
  · rw [portStep_no_entry_no_exit _ _ _ _ _ hone h2] at h1
    exact absurd h1 (by simp [h0])

/-- A step from FLAT never touches the trade log. -/
theorem portStep_trades_of_flat (i : ℕ) (s : PortState) (b : Bar) (e x : Bool)
    (h0 : s.positionOpen = false) : (portStep i s b e x).trades = s.trades := by
  by_cases hone : e = true ∧ s.positionOpen = false
  · obtain ⟨he, -⟩ := hone
    subst he
    cases hatr : b.atr14 with
    | none => rw [portStep_entry_none _ _ _ _ h0 hatr]
    | some atr =>
      by_cases hg : 0 < (entrySizer s.cash b atr).1 ∧ (entrySizer s.cash b atr).2.1 ≤ s.cash
      · rw [portStep_entry_exec _ _ _ _ _ h0 hatr hg]
      · rw [portStep_entry_skip _ _ _ _ _ h0 hatr hg]
  · rw [portStep_no_entry_no_exit _ _ _ _ _ hone (by simp [h0])]

/-- A step without the exit flag never touches the trade log. -/
theorem portStep_trades_of_no_exit_flag (i : ℕ) (s : PortState) (b : Bar) (e : Bool) :
    (portStep i s b e false).trades = s.trades := by
  by_cases hone : e = true ∧ s.positionOpen = false
  · obtain ⟨he, ho⟩ := hone
    subst he
    cases hatr : b.atr14 with
    | none => rw [portStep_entry_none _ _ _ _ ho hatr]
    | some atr =>
      by_cases hg : 0 < (entrySizer s.cash b atr).1 ∧ (entrySizer s.cash b atr).2.1 ≤ s.cash
      · rw [portStep_entry_exec _ _ _ _ _ ho hatr hg]
      · rw [portStep_entry_skip _ _ _ _ _ ho hatr hg]
  · rw [portStep_no_entry_no_exit _ _ _ _ _ hone (by simp)]

/-- An exit-flagged step while IN_POSITION lands FLAT. -/
theorem portStep_exit_closes (i : ℕ) (s : PortState) (b : Bar) (e : Bool)
    (h0 : s.positionOpen = true) : (portStep i s b e true).positionOpen = false := by
  rw [portStep_exit_exec _ _ _ _ h0]

theorem portRun_sharesInv : ∀ (l : List (Bar × Bool × Bool)) (i : ℕ) (s : PortState),
    sharesInv s → sharesInv (portRun l i s) := by
  intro l
  induction l with
  | nil => intro i s hs; exact hs
  | cons z rest ih =>
    intro i s hs
    obtain ⟨b, e, x⟩ := z
    exact ih (i + 1) _ (portStep_sharesInv i s b e x hs)

theorem portRun_good : ∀ (l : List (Bar × Bool × Bool)) (i : ℕ) (s : PortState),
    goodState s → (∀ p ∈ l, 0 ≤ (Prod.fst p).close) → goodState (portRun l i s) := by
  intro l
  induction l with
  | nil => intro i s hs _; exact hs
  | cons z rest ih =>
    intro i s hs hcl
    obtain ⟨b, e, x⟩ := z
    have hb : 0 ≤ b.close := hcl (b, e, x) (List.mem_cons_self _ _)
    refine ih (i + 1) _ ⟨portStep_cash_nonneg i s b e x hs.2 hs.1 hb,
      portStep_sharesInv i s b e x hs.2⟩ ?_
    intro p hp
    exact hcl p (List.mem_cons_of_mem _ hp)

theorem sharesInv_initPort (cash : ℚ) : sharesInv (initPort cash) :=
  ⟨le_refl 0, fun _ => rfl, fun hto => by simp [initPort] at hto⟩

theorem portTrace_sharesInv (bars : List Bar) (cash : ℚ) (n : ℕ) :
    sharesInv (portTrace bars cash n) :=
  portRun_sharesInv _ 0 _ (sharesInv_initPort cash)

theorem portRun_append : ∀ (l₁ l₂ : List (Bar × Bool × Bool)) (i : ℕ) (s : PortState),
    portRun (l₁ ++ l₂) i s = portRun l₂ (i + l₁.length) (portRun l₁ i s) := by
  intro l₁
  induction l₁ with
  | nil => intro l₂ i s; simp [portRun]
  | cons z rest ih =>
    intro l₂ i s
    obtain ⟨b, e, x⟩ := z
    show portRun (rest ++ l₂) (i + 1) (portStep i s b e x)
        = portRun l₂ (i + (rest.length + 1)) (portRun rest (i + 1) (portStep i s b e x))
    rw [ih]
    have harith : i + 1 + rest.length = i + (rest.length + 1) := by omega
    rw [harith]

theorem portRun_equity_length : ∀ (l : List (Bar × Bool × Bool)) (i : ℕ) (s : PortState),
    (portRun l i s).equity.length = s.equity.length + l.length := by
  intro l
  induction l with
  | nil => intro i s; simp [portRun]
  | cons z rest ih =>
    intro i s
    obtain ⟨b, e, x⟩ := z
    simp only [portRun]
    rw [ih, portStep_equity]
    simp
    omega

theorem portRun_equity_prefix : ∀ (l : List (Bar × Bool × Bool)) (i : ℕ) (s : PortState)
    (n : ℕ), n < s.equity.length → (portRun l i s).equity[n]? = s.equity[n]? := by
  intro l
  induction l with
  | nil => intro i s n _; rfl
  | cons z rest ih =>
    intro i s n hn
    obtain ⟨b, e, x⟩ := z
    simp only [portRun]
    rw [ih (i + 1) _ n (by rw [portStep_equity]; simp; omega), portStep_equity]
    exact List.getElem?_append_left hn

theorem portTrace_zero (bars : List Bar) (cash : ℚ) : portTrace bars cash 0 = initPort cash := rfl

theorem portTrace_succ (bars : List Bar) (cash : ℚ) (n : ℕ) (z : Bar × Bool × Bool)
    (hz : (zipSignals bars)[n]? = some z) :
    portTrace bars cash (n + 1) = portStep n (portTrace bars cash n) z.1 z.2.1 z.2.2 := by
  have hn : n < (zipSignals bars).length := by
    obtain ⟨hn, -⟩ := List.getElem?_eq_some.mp hz
    exact hn
  unfold portTrace
  rw [List.take_succ, hz]
  rw [portRun_append]
  have hlen : (List.take n (zipSignals bars)).length = n := by
    simp [List.length_take, Nat.min_eq_left (le_of_lt hn)]
  rw [hlen]
  obtain ⟨b, e, x⟩ := z
  simp [portRun]

theorem portTrace_stable (bars : List Bar) (cash : ℚ) (n : ℕ)
    (hn : (zipSignals bars).length ≤ n) : portTrace bars cash n = runPortfolio bars cash := by
  unfold portTrace runPortfolio
  rw [List.take_of_length_le hn]

theorem portTrace_equity_length (bars : List Bar) (cash : ℚ) (n : ℕ)
    (hn : n ≤ (zipSignals bars).length) : (portTrace bars cash n).equity.length = n := by
  unfold portTrace
  rw [portRun_equity_length]
  simp [initPort, List.length_take, Nat.min_eq_left hn]

theorem portEquityVal_eq (s : PortState) (b : Bar) (hs : sharesInv s) :
    portEquityVal s b = s.cash + (s.sharesHeld : ℚ) * b.close := by
  unfold portEquityVal
  split_ifs with h
  · rfl
  · have hz : s.sharesHeld = 0 := le_antisymm (not_lt.mp h) hs.1
    simp [hz]

/-! ## C6: cash and position invariants -/

/-- C6: along every run with non-negative initial cash and non-negative
closes, cash and holdings stay non-negative and holdings are empty while
FLAT (the state machine has a single position slot, so at most one
position is open); a FLAT→IN_POSITION step pays exactly
shares × entry price, at most the pre-entry cash, and an
IN_POSITION→FLAT step receives exactly shares × exit price. -/
theorem backtest_cash_invariants :
    ∀ (bars : List Bar) (cash0 : ℚ), 0 ≤ cash0 → (∀ b ∈ bars, 0 ≤ b.close) →
      (∀ n : ℕ, 0 ≤ (portTrace bars cash0 n).cash
        ∧ 0 ≤ (portTrace bars cash0 n).sharesHeld
        ∧ ((portTrace bars cash0 n).positionOpen = false →
            (portTrace bars cash0 n).sharesHeld = 0))
      ∧ (∀ (i : ℕ) (s : PortState) (b : Bar) (e x : Bool),
          s.positionOpen = false → (portStep i s b e x).positionOpen = true →
            (portStep i s b e x).cash
              = s.cash - ((portStep i s b e x).sharesHeld : ℚ) * b.close
            ∧ ((portStep i s b e x).sharesHeld : ℚ) * b.close ≤ s.cash
            ∧ 0 < (portStep i s b e x).sharesHeld)
      ∧ (∀ (i : ℕ) (s : PortState) (b : Bar) (e x : Bool),
          s.positionOpen = true → (portStep i s b e x).positionOpen = false →
            (portStep i s b e x).cash = s.cash + (s.sharesHeld : ℚ) * b.close
            ∧ (portStep i s b e x).sharesHeld = 0) := by
  intro bars cash0 h0 hcl
  refine ⟨?_, ?_, ?_⟩
  · intro n
    have hg : goodState (portTrace bars cash0 n) := by
      refine portRun_good _ 0 _ ⟨h0, sharesInv_initPort cash0⟩ ?_
      intro p hp
      have hp2 : p ∈ zipSignals bars := List.take_subset n _ hp
      exact hcl p.1 (List.of_mem_zip hp2).1
    exact ⟨hg.1, hg.2.1, hg.2.2.1⟩
  · intro i s b e x ho h1
    obtain ⟨hc, hle, hpos, -⟩ := portStep_opened i s b e x ho h1
    exact ⟨hc, hle, hpos⟩
  · intro i s b e x ho h1
    obtain ⟨hc, hz, -⟩ := portStep_closed i s b e x ho h1
    exact ⟨hc, hz⟩

/-- C6 (witness): the invariants at the stop-and-target run and the
entry-step cash equation at the concrete entry bar. -/
theorem backtest_cash_invariants_witness :
    0 ≤ (portTrace dfStopAndTarget 1000000 3).cash
    ∧ (portStep 1 (initPort 1000000) bEntry true false).cash
        = (initPort 1000000).cash
          - ((portStep 1 (initPort 1000000) bEntry true false).sharesHeld : ℚ) * bEntry.close := by
  have hcl : ∀ b ∈ dfStopAndTarget, 0 ≤ b.close := by
    intro b hb
    simp only [dfStopAndTarget, List.mem_cons, List.not_mem_nil, or_false] at hb
    rcases hb with rfl | rfl | rfl <;> norm_num [bFlat, bEntry, bBoth]
  have h := backtest_cash_invariants dfStopAndTarget 1000000 (by norm_num) hcl
  refine ⟨(h.1 3).1, ?_⟩
  refine (h.2.1 1 (initPort 1000000) bEntry true false rfl ?_).1
  norm_num [portStep, portEquityVal, entrySizer, calculate_realistic_position_size, pyInt,
    initPort, determineBreakoutLevel, r2Breakout, r3Breakout, rbSlMult, gtNaN, oGt, bEntry]

/-! ## C9: the equity curve -/

/-- C9: the equity curve receives exactly one value per processed bar,
and the value for bar `n` is `cash + shares_held × close` evaluated in
the state before that bar's entry or exit is applied (so an entry bar
records the pre-purchase cash with zero shares, and an exit bar records
the still-open position at that bar's close). -/
theorem equity_curve_records_pre_state :
    ∀ (bars : List Bar) (cash : ℚ),
      (equityOf bars cash).length = bars.length
      ∧ ∀ (n : ℕ) (b : Bar), bars[n]? = some b →
          (equityOf bars cash)[n]? =
            some ((portTrace bars cash n).cash
              + ((portTrace bars cash n).sharesHeld : ℚ) * b.close) := by
  intro bars cash
  constructor
  · show (runPortfolio bars cash).equity.length = _
    unfold runPortfolio
    rw [portRun_equity_length]
    simp [initPort, zipSignals_length]
  · intro n b hb
    have hn : n < bars.length := by
      obtain ⟨hn, -⟩ := List.getElem?_eq_some.mp hb
      exact hn
    have hnz : n < (zipSignals bars).length := by
      rw [zipSignals_length]
      exact hn
    obtain ⟨z, hz⟩ : ∃ z, (zipSignals bars)[n]? = some z := ⟨_, List.getElem?_eq_getElem hnz⟩
    have hzfst : bars[n]? = some z.1 := zip_getElem?_fst bars (genSignals bars) n z hz
    have hbz : b = z.1 := by
      rw [hzfst] at hb
      exact (Option.some_inj.mp hb).symm
    have hdecomp : runPortfolio bars cash
        = portRun (List.drop (n + 1) (zipSignals bars))
            (0 + (List.take (n + 1) (zipSignals bars)).length)
            (portTrace bars cash (n + 1)) := by
      unfold runPortfolio portTrace
      rw [← portRun_append, List.take_append_drop]
    have hlen1 : (portTrace bars cash (n + 1)).equity.length = n + 1 :=
      portTrace_equity_length _ _ _ (by omega)
    have hfull : (equityOf bars cash)[n]? = (portTrace bars cash (n + 1)).equity[n]? := by
      show (runPortfolio bars cash).equity[n]? = _
      rw [hdecomp]
      exact portRun_equity_prefix _ _ _ n (by rw [hlen1]; omega)
    have hlen0 : (portTrace bars cash n).equity.length = n :=
      portTrace_equity_length _ _ _ (by omega)
    have hconcat := List.getElem?_concat_length (portTrace bars cash n).equity
      (portEquityVal (portTrace bars cash n) z.1)
    rw [hlen0] at hconcat
    rw [hfull, portTrace_succ bars cash n z hz, portStep_equity, hconcat,
      portEquityVal_eq _ _ (portTrace_sharesInv bars cash n), hbz]

/-- C9 (witness): the equity value recorded on the concrete entry bar is
the pre-purchase cash with zero shares. -/
theorem equity_curve_records_pre_state_witness :
    (equityOf dfStillOpen 1000000)[1]? =
      some ((portTrace dfStillOpen 1000000 1).cash
        + ((portTrace dfStillOpen 1000000 1).sharesHeld : ℚ) * bEntry.close) :=
  (equity_curve_records_pre_state dfStillOpen 1000000).2 1 bEntry (by simp [dfStillOpen])

/-! ## C10: a position still open after the last bar -/

/-- The trade log's length plus one for a currently-open position counts
exactly the executed entries. -/
theorem trades_open_count (bars : List Bar) (cash : ℚ) : ∀ n : ℕ,
    (portTrace bars cash n).trades.length
      + (if (portTrace bars cash n).positionOpen = true then 1 else 0)
      = countEntriesUpTo bars cash n := by
  intro n
  induction n with
  | zero => rfl
  | succ n ih =>
    have hcount : countEntriesUpTo bars cash (n + 1)
        = countEntriesUpTo bars cash n
          + (if (!(portTrace bars cash n).positionOpen
                && (portTrace bars cash (n + 1)).positionOpen) = true then 1 else 0) := by
      unfold countEntriesUpTo
      rw [List.range_succ, List.filter_append, List.length_append]
      congr 1
      rw [List.filter_singleton]
      cases hcond : (!(portTrace bars cash n).positionOpen
          && (portTrace bars cash (n + 1)).positionOpen) <;> simp [hcond]
    by_cases hn : n < (zipSignals bars).length
    · obtain ⟨z, hz⟩ : ∃ z, (zipSignals bars)[n]? = some z := ⟨_, List.getElem?_eq_getElem hn⟩
      have hsucc := portTrace_succ bars cash n z hz
      rw [hcount, ← ih]
      cases ho : (portTrace bars cash n).positionOpen with
      | false =>
        cases ho2 : (portTrace bars cash (n + 1)).positionOpen with
        | false =>
          have ht : (portTrace bars cash (n + 1)).trades = (portTrace bars cash n).trades := by
            rw [hsucc]
            exact portStep_trades_of_flat _ _ _ _ _ ho
          simp [ho, ho2, ht]
        | true =>
          have hop := portStep_opened n (portTrace bars cash n) z.1 z.2.1 z.2.2 ho
            (by rw [← hsucc]; exact ho2)
          have ht : (portTrace bars cash (n + 1)).trades = (portTrace bars cash n).trades := by
            rw [hsucc]
            exact hop.2.2.2
          simp [ho, ho2, ht]
      | true =>
        cases ho2 : (portTrace bars cash (n + 1)).positionOpen with
        | false =>
          have hcl := portStep_closed n (portTrace bars cash n) z.1 z.2.1 z.2.2 ho
            (by rw [← hsucc]; exact ho2)
          have ht : (portTrace bars cash (n + 1)).trades
              = (portTrace bars cash n).trades ++ [mkExitTrade n (portTrace bars cash n) z.1] := by
            rw [hsucc]
            exact hcl.2.2
          simp [ho, ho2, ht]
        | true =>
          have hxf : z.2.2 = false := by
            cases hx2 : z.2.2 with
            | false => rfl
            | true =>
              rw [hx2] at hsucc
              have hcls := portStep_exit_closes n (portTrace bars cash n) z.1 z.2.1 ho
              rw [← hsucc] at hcls
              rw [hcls] at ho2
              exact absurd ho2 (by simp)
          have ht : (portTrace bars cash (n + 1)).trades = (portTrace bars cash n).trades := by
            rw [hsucc, hxf]
            exact portStep_trades_of_no_exit_flag _ _ _ _
          simp [ho, ho2, ht]
    · have heq : portTrace bars cash (n + 1) = portTrace bars cash n := by
        rw [portTrace_stable bars cash (n + 1) (by omega),
          portTrace_stable bars cash n (by omega)]
      rw [hcount, heq, ← ih]
      cases ho : (portTrace bars cash n).positionOpen <;> simp [ho]

/-- C10: when a position is still open after the last bar, the first
component of the returned tuple values it at shares × last close, the
holding is positive, yet the trade log covers exactly the executed
entries minus the one still open — no record is appended for it. -/
theorem open_position_in_final_value_not_in_log :
    ∀ (bars : List Bar) (cash : ℚ), bars ≠ [] →
      (runPortfolio bars cash).positionOpen = true →
        0 < (runPortfolio bars cash).sharesHeld
        ∧ (run_realistic_backtest bars cash).1
            = (runPortfolio bars cash).cash
              + ((runPortfolio bars cash).sharesHeld : ℚ) * lastClose bars
        ∧ (tradeLogOf bars cash).length + 1 = countEntriesExec bars cash := by
  intro bars cash hne hopen
  have hsi : sharesInv (runPortfolio bars cash) :=
    portRun_sharesInv _ 0 _ (sharesInv_initPort cash)
  refine ⟨hsi.2.2 hopen, rfl, ?_⟩
  have htrace : portTrace bars cash (zipSignals bars).length = runPortfolio bars cash :=
    portTrace_stable _ _ _ (le_refl _)
  have h := trades_open_count bars cash (zipSignals bars).length
  rw [htrace, hopen] at h
  simpa using h

/-- C10 (witness): the still-open run holds a positive position and its
trade log has one fewer record than executed entries. -/
theorem open_position_in_final_value_not_in_log_witness :
    0 < (runPortfolio dfStillOpen 1000000).sharesHeld
    ∧ (tradeLogOf dfStillOpen 1000000).length + 1 = countEntriesExec dfStillOpen 1000000 := by
  have h := open_position_in_final_value_not_in_log dfStillOpen 1000000
    (by simp [dfStillOpen])
    (by norm_num [runPortfolio, portRun, portStep, portEquityVal, entrySizer, zipSignals,
      initPort, mkExitTrade, calculate_realistic_position_size, pyInt, genSignals,
      genSignalsAux, sigStep, sigInit, breakoutEntryCondition, r1Breakout, r2Breakout,
      r3Breakout, determineBreakoutLevel, rbSlMult, rbTpMult, rbMaxDays, gtNaN, leNaN,
      geNaN, oGt, slOnHeldBar, tpOnHeldBar, dfStillOpen, bFlat, bEntry, bHeld])
  exact ⟨h.1, h.2.2⟩

end AITrader
